import Mathlib

/-!
Verification of the STABS-directive line parser of `src/main.cpp` (a PEGTL
grammar plus a parse-tree dump).  The PEG combinators used by the grammar are
deep-embedded as the inductive type `Rule`; `mrun` interprets a rule on an
input line with PEGTL's semantics: sequences rewind fully on failure, ordered
choice commits to the first success, repetition is greedy, lookahead is
zero-width, and `must` converts a local failure into a raised `parse_error`
(modelled by `MRes.err`).  A fuel parameter makes the interpreter total;
`none` models non-termination (a repetition whose body matches without
consuming, which PEGTL would loop on).

Nodes of the parse tree are produced by `Rule.node`: the embedding tags the
named rules of the grammar that either appear in the source's
`parse_tree::selector` list or whose matched spans the properties below speak
about (the `param_*` field rules, `lsym`, and the `type_def_range` rules).
PEGTL creates nodes only for selector-listed rules; `pruneForest` applies that
selector list (`selected`) to the raw tree, eliding unlisted nodes and
promoting their children, which reproduces the tree the program prints.
-/

namespace Stabs

/-- A parse-tree node: rule tag, matched span `[a, b)` of the input, and the
nodes produced by sub-rules, in match order. -/
inductive PTree where
  | mk (tag : String) (a : Nat) (b : Nat) (kids : List PTree)
  deriving Repr

/-- Outcome of running one rule: success at a new cursor with produced nodes,
local failure with the (rewound) cursor, or a raised `parse_error`. -/
inductive MRes where
  | ok (q : Nat) (kids : List PTree)
  | nok (q : Nat)
  | err
  deriving Repr

/-- Deep embedding of the PEGTL combinators used by `src/main.cpp`:
`eps` = empty sequence, `never` = empty choice, `anyc` = `any`,
`eofR` = `eof`, `pred` = a single character satisfying a predicate
(covers `one<...>`, `digit`, `alnum`, `blank`, `xdigit`, ranges),
`cat` = binary `seq`, `alt` = binary `sor`, `star`, `notAt` = `not_at`,
`atR` = `at`, `must`, and `node` which tags a rule for the parse tree. -/
inductive Rule where
  | eps
  | never
  | anyc
  | eofR
  | pred (g : Char → Bool)
  | cat (r1 r2 : Rule)
  | alt (r1 r2 : Rule)
  | star (r : Rule)
  | notAt (r : Rule)
  | atR (r : Rule)
  | must (r : Rule)
  | node (tag : String) (r : Rule)

/-- Interpreter for `Rule` with PEGTL semantics, total via fuel (first
argument); `none` means the fuel ran out, which on a grammar whose
repetitions all consume happens only below the fuel bound.  On failure every
combinator rewinds: the returned cursor of `MRes.nok` is the position the
rule started at. -/
def mrun : Nat → Rule → List Char → Nat → Option MRes
  | 0, _, _, _ => none
  | f + 1, r, s, p =>
    match r with
    | .eps => some (.ok p [])
    | .never => some (.nok p)
    | .anyc => if p < s.length then some (.ok (p + 1) []) else some (.nok p)
    | .eofR => if p < s.length then some (.nok p) else some (.ok p [])
    | .pred g =>
      match s[p]? with
      | some c => if g c then some (.ok (p + 1) []) else some (.nok p)
      | none => some (.nok p)
    | .cat r1 r2 =>
      match mrun f r1 s p with
      | some (.ok q1 k1) =>
        match mrun f r2 s q1 with
        | some (.ok q2 k2) => some (.ok q2 (k1 ++ k2))
        | some (.nok _) => some (.nok p)
        | some .err => some .err
        | none => none
      | some (.nok _) => some (.nok p)
      | some .err => some .err
      | none => none
    | .alt r1 r2 =>
      match mrun f r1 s p with
      | some (.ok q1 k1) => some (.ok q1 k1)
      | some (.nok _) => mrun f r2 s p
      | some .err => some .err
      | none => none
    | .star r1 =>
      match mrun f r1 s p with
      | some (.ok q1 k1) =>
        if p < q1 then
          match mrun f (.star r1) s q1 with
          | some (.ok q2 k2) => some (.ok q2 (k1 ++ k2))
          | some (.nok _) => some (.nok p)
          | some .err => some .err
          | none => none
        else none
      | some (.nok _) => some (.ok p [])
      | some .err => some .err
      | none => none
    | .notAt r1 =>
      match mrun f r1 s p with
      | some (.ok _ _) => some (.nok p)
      | some (.nok _) => some (.ok p [])
      | some .err => some .err
      | none => none
    | .atR r1 =>
      match mrun f r1 s p with
      | some (.ok _ _) => some (.ok p [])
      | some (.nok _) => some (.nok p)
      | some .err => some .err
      | none => none
    | .must r1 =>
      match mrun f r1 s p with
      | some (.ok q1 k1) => some (.ok q1 k1)
      | some (.nok _) => some .err
      | some .err => some .err
      | none => none
    | .node t r1 =>
      match mrun f r1 s p with
      | some (.ok q1 k1) => some (.ok q1 [PTree.mk t p q1 k1])
      | some (.nok _) => some (.nok p)
      | some .err => some .err
      | none => none

/-- Kind of an interpreter outcome, for decidable statements. -/
inductive RKind where
  | okK
  | nokK
  | errK
  | outK
  deriving DecidableEq, Repr

/-- Outcome kind of an `mrun` result (`outK` = out of fuel). -/
def resKind : Option MRes → RKind
  | some (.ok _ _) => .okK
  | some (.nok _) => .nokK
  | some .err => .errK
  | none => .outK

/-- Returns `true` iff the result is a match. -/
def isOk : Option MRes → Bool
  | some (.ok _ _) => true
  | _ => false

/-- Final cursor of a successful result (0 otherwise). -/
def endOf : Option MRes → Nat
  | some (.ok q _) => q
  | _ => 0

/-- Nodes of a successful result (empty otherwise). -/
def treeOf : Option MRes → List PTree
  | some (.ok _ k) => k
  | _ => []

/-- Rewound cursor of a local failure (0 otherwise). -/
def nokPos : Option MRes → Nat
  | some (.nok q) => q
  | _ => 0

/-- The substring `[a, b)` of the input. -/
def slice (s : List Char) (a b : Nat) : List Char :=
  (s.drop a).take (b - a)

/-- Matches the single character `c` (`one<c>`). -/
def chr (c : Char) : Rule := .pred (fun x => x == c)

/-- The literal character sequence `cs` (`string<...>` / `TAO_PEGTL_STRING`). -/
def strR (cs : List Char) : Rule :=
  cs.foldr (fun c r => .cat (chr c) r) .eps

/-- PEGTL `opt<R>`: match `R` if possible, otherwise succeed consuming nothing. -/
def optR (r : Rule) : Rule := .alt r .eps

/-- PEGTL `plus<R>` = `seq<R, star<R>>`. -/
def plusR (r : Rule) : Rule := .cat r (.star r)

/-- Source `until_not_at<R>` = `star<not_at<R>, any>`: skip forward until `R`
matches, without consuming `R`. -/
def until_not_at (r : Rule) : Rule := .star (.cat (.notAt r) .anyc)

/-- PEGTL `until<R>`: consume everything up to `R` and `R` itself; equivalent to
`seq<star<not_at<R>, any>, R>`. -/
def untilR (r : Rule) : Rule := .cat (until_not_at r) r

/-- PEGTL `blank`: space or horizontal tab. -/
def blankC (c : Char) : Bool := c == ' ' || c == '\t'

/-- PEGTL `digit`. -/
def digitC (c : Char) : Bool := c.isDigit

/-- PEGTL `alnum`. -/
def alnumC (c : Char) : Bool := c.isAlphanum

/-- PEGTL `xdigit`. -/
def xdigitC (c : Char) : Bool :=
  c.isDigit || ('a' ≤ c && c ≤ 'f') || ('A' ≤ c && c ≤ 'F')

/-- First character of a PEGTL `identifier`: letter or underscore. -/
def identFirstC (c : Char) : Bool := c.isAlpha || c == '_'

/-- Later characters of a PEGTL `identifier`: letter, digit or underscore. -/
def identOtherC (c : Char) : Bool := c.isAlphanum || c == '_'

/-- PEGTL `identifier` = `seq<identifier_first, star<identifier_other>>`. -/
def identifier : Rule := .cat (.pred identFirstC) (.star (.pred identOtherC))

/-- PEGTL `eol` for plain string input: LF or CRLF. -/
def eolR : Rule := .alt (strR "\r\n".toList) (chr '\n')

/-- The `stoi` helper of the source (`std::stoi` on a `digits` lexeme:
optional minus sign followed by decimal digits). -/
def stoi (cs : List Char) : Int :=
  match cs with
  | '-' :: rest => - Int.ofNat (rest.foldl (fun a c => a * 10 + (c.toNat - 48)) 0)
  | _ => Int.ofNat (cs.foldl (fun a c => a * 10 + (c.toNat - 48)) 0)

/-! The grammar of `src/main.cpp`, rule by rule, in source order. -/

/-- Source rule `blanks : star<blank>`. -/
def blanks : Rule := .star (.pred blankC)

/-- Source rule `digits : seq<opt<one<'-'>>, plus<digit>>`. -/
def digits : Rule := .cat (optR (chr '-')) (plusR (.pred digitC))

/-- Source rule `dquote : one<'"'>`. -/
def dquote : Rule := chr '"'

/-- Source rule `comma : one<','>`. -/
def comma : Rule := chr ','

/-- Source rule `unquoted_string : plus<alnum>`. -/
def unquoted_string : Rule := plusR (.pred alnumC)

/-- Source rule `dquoted_string : seq<dquote, until<dquote>>`. -/
def dquoted_string : Rule := .cat dquote (untilR dquote)

/-- Source rule `sep : seq<blanks, comma, blanks>`. -/
def sep : Rule := .cat blanks (.cat comma blanks)

/-- Source rule `file_path : star<sor<alnum, one<'-'>, one<'_'>, one<'/'>, one<'.'>>>`. -/
def file_path : Rule :=
  .star (.alt (.pred alnumC) (.alt (chr '-') (.alt (chr '_') (.alt (chr '/') (chr '.')))))

/-- Source rule `type_def_name : plus<seq<identifier, blanks>>`. -/
def type_def_name : Rule := .node "type_def_name" (plusR (.cat identifier blanks))

/-- Source rule `type_def_id : digits`. -/
def type_def_id : Rule := .node "type_def_id" digits

/-- Source rule `type_def_range_def_id : digits`. -/
def type_def_range_def_id : Rule := .node "type_def_range_def_id" digits

/-- Source rule `type_def_range_lower_bound : digits`. -/
def type_def_range_lower_bound : Rule := .node "type_def_range_lower_bound" digits

/-- Source rule `type_def_range_upper_bound : digits`. -/
def type_def_range_upper_bound : Rule := .node "type_def_range_upper_bound" digits

/-- Source rule `type_def_range : seq<one<'='>, one<'r', 'R'>, type_def_range_def_id,
one<';'>, type_def_range_lower_bound, one<';'>, type_def_range_upper_bound,
one<';'>>`. -/
def type_def_range : Rule :=
  .node "type_def_range"
    (.cat (chr '=')
      (.cat (.pred (fun c => c == 'r' || c == 'R'))
        (.cat type_def_range_def_id
          (.cat (chr ';')
            (.cat type_def_range_lower_bound
              (.cat (chr ';')
                (.cat type_def_range_upper_bound (chr ';'))))))))

/-- Source rule `type_def : seq<type_def_name, one<':'>, one<'t'>, type_def_id,
opt<type_def_range>>`. -/
def type_def : Rule :=
  .node "type_def"
    (.cat type_def_name
      (.cat (chr ':')
        (.cat (chr 't')
          (.cat type_def_id (optR type_def_range)))))

/-- Source rule `pointer_def_id : digits`. -/
def pointer_def_id : Rule := .node "pointer_def_id" digits

/-- Source rule `pointer_ref_id : digits`. -/
def pointer_ref_id : Rule := .node "pointer_ref_id" digits

/-- Source rule `pointer_def : seq<pointer_def_id, one<'='>, one<'*'>, pointer_ref_id>`. -/
def pointer_def : Rule :=
  .node "pointer_def"
    (.cat pointer_def_id (.cat (chr '=') (.cat (chr '*') pointer_ref_id)))

/-- Source rule `type_ref_id : digits`. -/
def type_ref_id : Rule := .node "type_ref_id" digits

/-- Source rule `type_ref : sor<pointer_def, type_ref_id>`. -/
def type_ref : Rule := .node "type_ref" (.alt pointer_def type_ref_id)

/-- Source rule `variable_name : identifier`. -/
def variable_name : Rule := .node "variable_name" identifier

/-- Source rule `variable : seq<variable_name, one<':'>, type_ref>` (named `variable_`
here because `variable` is a Lean keyword). -/
def variable_ : Rule := .node "variable" (.cat variable_name (.cat (chr ':') type_ref))

/-- Source rule `array_subrange : seq<string<'=', 'r'>, digits, one<';'>, digits, one<';'>,
digits, one<';'>>`. -/
def array_subrange : Rule :=
  .cat (strR "=r".toList)
    (.cat digits
      (.cat (chr ';')
        (.cat digits
          (.cat (chr ';') (.cat digits (chr ';'))))))

/-- Source rule `array_name : identifier`. -/
def array_name : Rule := .node "array_name" identifier

/-- Source rule `array_type_id : digits`. -/
def array_type_id : Rule := .node "array_type_id" digits

/-- Source rule `array_max_index : digits`. -/
def array_max_index : Rule := .node "array_max_index" digits

/-- Source rule `array_type : seq<array_type_id, string<'=', 'a', 'r'>, digits,
opt<array_subrange>, one<';'>, digits, one<';'>, array_max_index, one<';'>>`. -/
def array_type : Rule :=
  .cat array_type_id
    (.cat (strR "=ar".toList)
      (.cat digits
        (.cat (optR array_subrange)
          (.cat (chr ';')
            (.cat digits
              (.cat (chr ';')
                (.cat array_max_index (chr ';'))))))))

/-- Source rule `terminal_array_type : seq<type_ref>`. -/
def terminal_array_type : Rule := type_ref

/-- Source rule `array : seq<array_name, one<':'>, plus<array_type>, terminal_array_type>`. -/
def array : Rule :=
  .node "array"
    (.cat array_name
      (.cat (chr ':') (.cat (plusR array_type) terminal_array_type)))

/-- Source rule `enum_name : identifier`. -/
def enum_name : Rule := .node "enum_name" identifier

/-- Source rule `enum_id : digits`. -/
def enum_id : Rule := .node "enum_id" digits

/-- Source rule `enum_value_id : identifier`. -/
def enum_value_id : Rule := .node "enum_value_id" identifier

/-- Source rule `enum_value_num : digits`. -/
def enum_value_num : Rule := .node "enum_value_num" digits

/-- Source rule `enum_value : seq<enum_value_id, one<':'>, enum_value_num, comma>`. -/
def enum_value : Rule :=
  .cat enum_value_id (.cat (chr ':') (.cat enum_value_num comma))

/-- Source rule `enum_ : seq<enum_name, one<':'>, one<'t'>, enum_id, one<'='>,
plus<enum_value>, one<';'>>`.  Note: there is no literal `'e'` after `'='`. -/
def enum_ : Rule :=
  .node "enum_"
    (.cat enum_name
      (.cat (chr ':')
        (.cat (chr 't')
          (.cat enum_id
            (.cat (chr '=')
              (.cat (plusR enum_value) (chr ';')))))))

/-- Source rule `struct_name : identifier`. -/
def struct_name : Rule := .node "struct_name" identifier

/-- Source rule `struct_id : digits`. -/
def struct_id : Rule := .node "struct_id" digits

/-- Source rule `struct_byte_size : digits`. -/
def struct_byte_size : Rule := .node "struct_byte_size" digits

/-- Source rule `struct_member_name : identifier`. -/
def struct_member_name : Rule := .node "struct_member_name" identifier

/-- Source rule `struct_member_bit_offset : digits`. -/
def struct_member_bit_offset : Rule := .node "struct_member_bit_offset" digits

/-- Source rule `struct_member_bit_size : digits`. -/
def struct_member_bit_size : Rule := .node "struct_member_bit_size" digits

/-- Source rule `struct_member : seq<struct_member_name, one<':'>, type_ref, comma,
struct_member_bit_offset, comma, struct_member_bit_size, one<';'>>`. -/
def struct_member : Rule :=
  .node "struct_member"
    (.cat struct_member_name
      (.cat (chr ':')
        (.cat type_ref
          (.cat comma
            (.cat struct_member_bit_offset
              (.cat comma
                (.cat struct_member_bit_size (chr ';'))))))))

/-- Source rule `struct_ : seq<struct_name, one<':'>, one<'T'>, struct_id, one<'='>,
one<'s'>, struct_byte_size, star<struct_member>, one<';'>>`. -/
def struct_ : Rule :=
  .node "struct_"
    (.cat struct_name
      (.cat (chr ':')
        (.cat (chr 'T')
          (.cat struct_id
            (.cat (chr '=')
              (.cat (chr 's')
                (.cat struct_byte_size
                  (.cat (.star struct_member) (chr ';')))))))))

/-- Source rule `lsym : sor<struct_, array, enum_, type_def, variable>`. -/
def lsym : Rule :=
  .node "lsym" (.alt struct_ (.alt array (.alt enum_ (.alt type_def variable_))))

/-- Source rule `include_file : file_path`. -/
def include_file : Rule := .node "include_file" file_path

/-- Alias `DEFAULT_PARAM_STRING_RULE = until_not_at<dquote>`. -/
def DEFAULT_PARAM_STRING_RULE : Rule := until_not_at dquote

/-- Alias `DEFAULT_PARAM_TYPE_RULE = until_not_at<comma>`. -/
def DEFAULT_PARAM_TYPE_RULE : Rule := until_not_at comma

/-- Alias `DEFAULT_PARAM_OTHER_RULE = until_not_at<comma>`. -/
def DEFAULT_PARAM_OTHER_RULE : Rule := until_not_at comma

/-- Alias `DEFAULT_PARAM_DESC_RULE = until_not_at<comma>`. -/
def DEFAULT_PARAM_DESC_RULE : Rule := until_not_at comma

/-- Alias `DEFAULT_PARAM_VALUE_RULE = until_not_at<eol>`. -/
def DEFAULT_PARAM_VALUE_RULE : Rule := until_not_at eolR

/-- Source rule `param_string<RULE> : seq<dquote, RULE, dquote>`. -/
def param_string (r : Rule) : Rule := .node "param_string" (.cat dquote (.cat r dquote))

/-- Source rule `param_type<RULE> : seq<RULE>`. -/
def param_type (r : Rule) : Rule := .node "param_type" r

/-- Source rule `param_other<RULE> : digits` (the template parameter is unused in the
source: the body is always `digits`). -/
def param_other (_r : Rule) : Rule := .node "param_other" digits

/-- Source rule `param_desc<RULE> : seq<RULE>`. -/
def param_desc (r : Rule) : Rule := .node "param_desc" r

/-- Source rule `param_value<RULE> : unquoted_string` (the template parameter is unused in
the source: the body is always `unquoted_string`). -/
def param_value (_r : Rule) : Rule := .node "param_value" unquoted_string

/-- Source rule `str_stabs : TAO_PEGTL_STRING(".stabs")`. -/
def str_stabs : Rule := strR ".stabs".toList

/-- Source rule `str_stabd : TAO_PEGTL_STRING(".stabd")`. -/
def str_stabd : Rule := strR ".stabd".toList

/-- Source rule `stabs_directive_prefix : seq<until<str_stabs>, blanks>`
(renamed here: Lean-side lexical constraints on the suffix of the name). -/
def stabs_directive_start : Rule := .cat (untilR str_stabs) blanks

/-- Source rule `stabd_directive_prefix : seq<until<str_stabd>, blanks>`
(renamed for the same reason). -/
def stabd_directive_start : Rule := .cat (untilR str_stabd) blanks

/-- Source rule `stabs_directive_for<STRING_RULE, TYPE_RULE, OTHER_RULE, DESC_RULE,
VALUE_RULE> : seq<stabs_directive_prefix, param_string<STRING_RULE>, sep,
param_type<TYPE_RULE>, sep, param_other<OTHER_RULE>, sep,
param_desc<DESC_RULE>, sep, param_value<VALUE_RULE>>`. -/
def stabs_directive_for (sr tr otr dr vr : Rule) : Rule :=
  .cat stabs_directive_start
    (.cat (param_string sr)
      (.cat sep
        (.cat (param_type tr)
          (.cat sep
            (.cat (param_other otr)
              (.cat sep
                (.cat (param_desc dr)
                  (.cat sep (param_value vr)))))))))

/-- Source rule `stabd_directive_for<TYPE_RULE, OTHER_RULE, DESC_RULE> :
seq<stabd_directive_prefix, param_type<TYPE_RULE>, sep,
param_other<OTHER_RULE>, sep, param_desc<DESC_RULE>>`. -/
def stabd_directive_for (tr otr dr : Rule) : Rule :=
  .cat stabd_directive_start
    (.cat (param_type tr)
      (.cat sep
        (.cat (param_other otr)
          (.cat sep (param_desc dr)))))

/-- Source rule `stabs_directive_lsym : stabs_directive_for<lsym, TAO_PEGTL_STRING("128"),
DEFAULT_PARAM_OTHER_RULE, DEFAULT_PARAM_DESC_RULE, DEFAULT_PARAM_VALUE_RULE>`. -/
def stabs_directive_lsym : Rule :=
  stabs_directive_for lsym (strR "128".toList) DEFAULT_PARAM_OTHER_RULE
    DEFAULT_PARAM_DESC_RULE DEFAULT_PARAM_VALUE_RULE

/-- Source rule `stabs_directive_include_file : stabs_directive_for<include_file,
TAO_PEGTL_STRING("132"), DEFAULT_PARAM_OTHER_RULE, DEFAULT_PARAM_DESC_RULE,
DEFAULT_PARAM_VALUE_RULE>`. -/
def stabs_directive_include_file : Rule :=
  stabs_directive_for include_file (strR "132".toList) DEFAULT_PARAM_OTHER_RULE
    DEFAULT_PARAM_DESC_RULE DEFAULT_PARAM_VALUE_RULE

/-- Source rule `stabs_directive : sor<stabs_directive_lsym, stabs_directive_include_file>`. -/
def stabs_directive : Rule :=
  .node "stabs_directive" (.alt stabs_directive_lsym stabs_directive_include_file)

/-- Source rule `source_current_line : digits`. -/
def source_current_line : Rule := .node "source_current_line" digits

/-- Source rule `stabd_directive_line : stabd_directive_for<TAO_PEGTL_STRING("68"),
DEFAULT_PARAM_OTHER_RULE, source_current_line>`. -/
def stabd_directive_line : Rule :=
  stabd_directive_for (strR "68".toList) DEFAULT_PARAM_OTHER_RULE source_current_line

/-- Source rule `stabd_directive : sor<stabd_directive_line>` (a one-alternative `sor`). -/
def stabd_directive : Rule := .node "stabd_directive" stabd_directive_line

/-- Source rule `instr_address : seq<xdigit, xdigit, xdigit, xdigit>`. -/
def instr_address : Rule :=
  .node "instr_address"
    (.cat (.pred xdigitC) (.cat (.pred xdigitC) (.cat (.pred xdigitC) (.pred xdigitC))))

/-- Source rule `instruction : seq<blanks, instr_address, until<one<'['>>, any, any,
one<']'>, star<any>>`. -/
def instruction : Rule :=
  .node "instruction"
    (.cat blanks
      (.cat instr_address
        (.cat (untilR (chr '['))
          (.cat .anyc
            (.cat .anyc
              (.cat (chr ']') (.star .anyc)))))))

/-- Source rule `label_address : seq<xdigit, xdigit, xdigit, xdigit>`. -/
def label_address : Rule :=
  .node "label_address"
    (.cat (.pred xdigitC) (.cat (.pred xdigitC) (.cat (.pred xdigitC) (.pred xdigitC))))

/-- Source rule `label_name : identifier`. -/
def label_name : Rule := .node "label_name" identifier

/-- Source rule `label : seq<blanks, label_address, blanks, plus<digits>, blanks,
label_name, one<':'>>`. -/
def label : Rule :=
  .node "label"
    (.cat blanks
      (.cat label_address
        (.cat blanks
          (.cat (plusR digits)
            (.cat blanks
              (.cat label_name (chr ':')))))))

/-- Body of the top-level rule:
`seq<sor<instruction, label, stabs_directive, stabd_directive>, eof>`. -/
def grammar_body : Rule :=
  .cat (.alt instruction (.alt label (.alt stabs_directive stabd_directive))) .eofR

/-- Source rule `grammar : must<seq<sor<instruction, label, stabs_directive,
stabd_directive>, eof>>` — the `must` turns failure of the body into a raised
`parse_error`. -/
def grammar : Rule := .must grammar_body

/-! Capture extraction, the parse-tree selector, and the tree dump. -/

/-- All spans captured under tag `t` in one node, depth-first. -/
def capsTree (t : String) : PTree → List (Nat × Nat)
  | .mk tag a b kids => (if tag = t then [(a, b)] else []) ++ capsForest t kids
where
  /-- All spans captured under tag `t` in a forest, depth-first. -/
  capsForest (t : String) : List PTree → List (Nat × Nat)
  | [] => []
  | x :: xs => capsTree t x ++ capsForest t xs

/-- All spans captured under tag `t` in a forest, depth-first. -/
def capsForest (t : String) : List PTree → List (Nat × Nat) :=
  capsTree.capsForest t

/-- The matched texts of all nodes tagged `t`, in match order. -/
def capTexts (t : String) (s : List Char) (k : List PTree) : List (List Char) :=
  (capsForest t k).map (fun ab => slice s ab.1 ab.2)

/-- All tags syntactically occurring in a rule (a node produced by running the
rule can only carry one of these). -/
def rtags : Rule → List String
  | .node t r => t :: rtags r
  | .cat a b => rtags a ++ rtags b
  | .alt a b => rtags a ++ rtags b
  | .star a => rtags a
  | .notAt a => rtags a
  | .atR a => rtags a
  | .must a => rtags a
  | _ => []

/-- All tags of the nodes of a tree. -/
def tagsTree : PTree → List String
  | .mk t _ _ kids => t :: tagsForest kids
where
  /-- All tags of the nodes of a forest. -/
  tagsForest : List PTree → List String
  | [] => []
  | x :: xs => tagsTree x ++ tagsForest xs

/-- All tags of the nodes of a forest. -/
def tagsForest : List PTree → List String :=
  tagsTree.tagsForest

/-- Returns `true` iff the rule contains no `node` tag (running it produces no parse
tree nodes). -/
def tagFree : Rule → Bool
  | .node _ _ => false
  | .cat a b => tagFree a && tagFree b
  | .alt a b => tagFree a && tagFree b
  | .star a => tagFree a
  | .notAt a => tagFree a
  | .atR a => tagFree a
  | .must a => tagFree a
  | _ => true

/-- The rule tags retained by the source's `parse_tree::selector`
(`store_content::on<...>`, source lines 225-253), in source order. -/
def selected : List String :=
  ["stabd_directive", "stabs_directive",
   "array", "array_name", "array_type_id", "array_max_index",
   "type_def", "type_def_name", "type_def_id", "type_def_range_lower_bound",
   "type_def_range_upper_bound",
   "variable", "type_ref", "variable_name", "type_ref_id", "pointer_def",
   "pointer_def_id", "pointer_ref_id",
   "enum_", "enum_name", "enum_id", "enum_value_id", "enum_value_num",
   "struct_", "struct_name", "struct_id", "struct_byte_size",
   "struct_member_name", "struct_member_bit_offset", "struct_member_bit_size",
   "struct_member",
   "instruction", "instr_address",
   "label", "label_address", "label_name",
   "include_file",
   "source_current_line"]

/-- Apply the selector to one raw node: a selector-listed rule keeps its node,
any other rule is elided and its children are promoted. -/
def pruneTree : PTree → List PTree
  | .mk t a b kids =>
    if t ∈ selected then [PTree.mk t a b (pruneForest kids)] else pruneForest kids
where
  /-- Apply the selector to a raw forest. -/
  pruneForest : List PTree → List PTree
  | [] => []
  | x :: xs => pruneTree x ++ pruneForest xs

/-- Apply the selector to a raw forest. -/
def pruneForest : List PTree → List PTree :=
  pruneTree.pruneForest

/-- A node of the tree the program prints: demangled rule tag, matched text
(`string_view` into the line), children (`pegtl::parse_tree::node`). -/
inductive Node where
  | mk (tag : String) (text : String) (children : List Node)
  deriving Repr

/-- Resolve a parse-tree node against the source line. -/
def toNode (s : List Char) : PTree → Node
  | .mk t a b kids => Node.mk t (String.mk (slice s a b)) (toForest s kids)
where
  /-- Resolve a forest against the source line. -/
  toForest (s : List Char) : List PTree → List Node
  | [] => []
  | x :: xs => toNode s x :: toForest s xs

/-- Resolve a forest against the source line. -/
def toForest (s : List Char) : List PTree → List Node :=
  toNode.toForest s

/-- The root node returned by `parse_tree::parse` for a line: a sentinel with
no content whose children are the retained nodes of the match. -/
def parseRoot (s : List Char) : Node :=
  Node.mk "root" "" (toForest s (pruneForest (treeOf (mrun 500 grammar s 0))))

/-- The lines printed for one node by the inner lambda `f` of
`stabs::PrintParseTree`: a line of `depth` single spaces (the C++ loop prints
`" "` once per depth level), the rule tag, `": \x60"`, the matched text and a
closing backquote, followed by the lines of the children at `depth + 1`. -/
def printNodeLines : Node → Nat → List String
  | .mk t x cs, d =>
    (String.mk (List.replicate d ' ') ++ t ++ ": `" ++ x ++ "`")
      :: printForestLines cs (d + 1)
where
  /-- Lines printed for a list of sibling nodes, in order. -/
  printForestLines : List Node → Nat → List String
  | [], _ => []
  | c :: cs, d => printNodeLines c d ++ printForestLines cs d

/-- Lines printed for a list of sibling nodes, in order. -/
def printForestLines : List Node → Nat → List String :=
  printNodeLines.printForestLines

/-- Function `stabs::PrintParseTree` (source lines 257-274): prints the root's direct
children starting at depth 0 (the root itself carries no content and is not
printed) and a final empty line. -/
def PrintParseTree (root : Node) : List String :=
  (match root with | .mk _ _ cs => printForestLines cs 0) ++ [""]

/-- The dump format described by the specification, with `w` spaces of indent
per tree depth: one line per retained node, `"<indent><ruleTag>: \x60<matchedText>\x60"`,
children one depth deeper. -/
def dumpNodeW (w : Nat) : Node → Nat → List String
  | .mk t x cs, d =>
    (String.mk (List.replicate (w * d) ' ') ++ t ++ ": `" ++ x ++ "`")
      :: dumpForestW w cs (d + 1)
where
  /-- Specification dump of sibling nodes, in order. -/
  dumpForestW (w : Nat) : List Node → Nat → List String
  | [], _ => []
  | c :: cs, d => dumpNodeW w c d ++ dumpForestW w cs d

/-- Specification dump of sibling nodes, in order. -/
def dumpForestW (w : Nat) : List Node → Nat → List String :=
  (dumpNodeW.dumpForestW w)

/-- Specification dump of a whole tree: root's direct children at depth 0,
then the final empty line. -/
def dumpTreeW (w : Nat) (root : Node) : List String :=
  (match root with | .mk _ _ cs => dumpForestW w cs 0) ++ [""]

/-- Number of nodes of a tree (the root sentinel not counted). -/
def countNode : Node → Nat
  | .mk _ _ cs => 1 + countForest cs
where
  /-- Number of nodes of a forest. -/
  countForest : List Node → Nat
  | [] => 0
  | c :: cs => countNode c + countForest cs

/-- Number of nodes of a forest. -/
def countForest : List Node → Nat :=
  countNode.countForest

/-- Returns `true` iff `cs` is a single PEGTL identifier: nonempty, first character a
letter or underscore, the rest letters, digits or underscores. -/
def isIdentStr : List Char → Bool
  | [] => false
  | c :: rest => identFirstC c && rest.all identOtherC

/-! Concrete inputs used by the properties: the two active lines of the
source's test harness, the payload examples of the source comments, and a
line with an unterminated quoted field. -/

/-- First test line of `main` (source line 283). -/
def line1 : List Char :=
  "                            204 ;\t.stabs\t\"src/vectrexy.h\",132,0,0,Ltext2".toList

/-- Second test line of `main` (source line 284). -/
def line2 : List Char :=
  "                            206 ;    .stabd\t68, 0, 61".toList

/-- Enum payload `"bool:t22=eFalse:0,True:1,;"`. -/
def enumPay : List Char := "bool:t22=eFalse:0,True:1,;".toList

/-- Type-definition payload `"int:t7"`. -/
def payInt : List Char := "int:t7".toList

/-- Type-definition payload `"char:t13=r13;0;255;"` (self-referential range). -/
def payChar : List Char := "char:t13=r13;0;255;".toList

/-- Multi-word type-definition payload `"complex long double:t3=R3;8;0;"`
(uppercase range marker). -/
def payMulti : List Char := "complex long double:t3=R3;8;0;".toList

/-- Struct payload `"Bar:T25=s3x:7,0,8;y:7,8,8;z:7,16,8;;"`. -/
def payStruct : List Char := "Bar:T25=s3x:7,0,8;y:7,8,8;z:7,16,8;;".toList

/-- A lone range `"=r13;0;255;"`. -/
def payRange : List Char := "=r13;0;255;".toList

/-- A `.stabs` line whose quoted field has no terminating quote. -/
def badLine : List Char := "\t.stabs\t\"int:t7,128,0,0,0".toList

/-! Basic lemmas about the interpreter. -/

/-- With no fuel the interpreter gives no verdict. -/
theorem mrun_zero (r : Rule) (s : List Char) (p : Nat) : mrun 0 r s p = none := rfl

/-- Every local failure is reported at the position the rule started at: the
combinators rewind fully. -/
theorem mrun_nok_eq : ∀ (f : Nat) (r : Rule) (s : List Char) (p q : Nat),
    mrun f r s p = some (.nok q) → q = p := by
  intro f
  induction f with
  | zero => intro r s p q h; simp [mrun] at h
  | succ f ih =>
    intro r s p q h
    cases r with
    | eps => simp [mrun] at h
    | never => simp [mrun] at h; omega
    | anyc =>
      simp only [mrun] at h
      split at h <;> simp_all
    | eofR =>
      simp only [mrun] at h
      split at h <;> simp_all
    | pred g =>
      simp only [mrun] at h
      split at h
      · split at h <;> simp_all
      · simp_all
    | cat r1 r2 =>
      simp only [mrun] at h
      split at h
      · split at h <;> simp_all
      · simp_all
      · simp_all
      · simp_all
    | alt r1 r2 =>
      simp only [mrun] at h
      split at h
      · simp_all
      · exact ih r2 s p q h
      · simp_all
      · simp_all
    | star r1 =>
      simp only [mrun] at h
      split at h
      · split at h
        · split at h <;> simp_all
        · simp_all
      · simp_all
      · simp_all
      · simp_all
    | notAt r1 =>
      simp only [mrun] at h
      split at h <;> simp_all
    | atR r1 =>
      simp only [mrun] at h
      split at h <;> simp_all
    | must r1 =>
      simp only [mrun] at h
      split at h <;> simp_all
    | node t r1 =>
      simp only [mrun] at h
      split at h <;> simp_all

/-- A successful match never moves the cursor backwards. -/
theorem mrun_ok_le : ∀ (f : Nat) (r : Rule) (s : List Char) (p q : Nat)
    (k : List PTree), mrun f r s p = some (.ok q k) → p ≤ q := by
  intro f
  induction f with
  | zero => intro r s p q k h; simp [mrun] at h
  | succ f ih =>
    intro r s p q k h
    cases r with
    | eps => simp [mrun] at h; omega
    | never => simp [mrun] at h
    | anyc =>
      simp only [mrun] at h
      split at h
      · simp_all; omega
      · simp_all
    | eofR =>
      simp only [mrun] at h
      split at h <;> simp_all
    | pred g =>
      simp only [mrun] at h
      split at h
      · split at h
        · simp_all; omega
        · simp_all
      · simp_all
    | cat r1 r2 =>
      simp only [mrun] at h
      split at h
      · rename_i q1 k1 heq1
        split at h
        · rename_i q2 k2 heq2
          have h1 := ih r1 s p q1 k1 heq1
          have h2 := ih r2 s q1 q2 k2 heq2
          simp only [Option.some.injEq, MRes.ok.injEq] at h
          omega
        · simp_all
        · simp_all
        · simp_all
      · simp_all
      · simp_all
      · simp_all
    | alt r1 r2 =>
      simp only [mrun] at h
      split at h
      · rename_i q1 k1 heq1
        have h1 := ih r1 s p q1 k1 heq1
        simp only [Option.some.injEq, MRes.ok.injEq] at h
        omega
      · exact ih r2 s p q k h
      · simp_all
      · simp_all
    | star r1 =>
      simp only [mrun] at h
      split at h
      · rename_i q1 k1 heq1
        split at h
        · split at h
          · rename_i hlt _ q2 k2 heq2
            have h2 := ih (.star r1) s q1 q2 k2 heq2
            simp only [Option.some.injEq, MRes.ok.injEq] at h
            omega
          · simp_all
          · simp_all
          · simp_all
        · simp_all
      · simp_all
      · simp_all
      · simp_all
    | notAt r1 =>
      simp only [mrun] at h
      split at h <;> simp_all
    | atR r1 =>
      simp only [mrun] at h
      split at h <;> simp_all
    | must r1 =>
      simp only [mrun] at h
      split at h
      · rename_i q1 k1 heq1
        have h1 := ih r1 s p q1 k1 heq1
        simp only [Option.some.injEq, MRes.ok.injEq] at h
        omega
      · simp_all
      · simp_all
      · simp_all
    | node t r1 =>
      simp only [mrun] at h
      split at h
      · rename_i q1 k1 heq1
        have h1 := ih r1 s p q1 k1 heq1
        simp only [Option.some.injEq, MRes.ok.injEq] at h
        omega
      · simp_all
      · simp_all
      · simp_all

/-- Unfolding of `tagsForest` on a cons. -/
theorem tagsForest_cons (x : PTree) (xs : List PTree) :
    tagsForest (x :: xs) = tagsTree x ++ tagsForest xs := rfl

/-- The function `tagsForest` distributes over append. -/
theorem tagsForest_append (a b : List PTree) :
    tagsForest (a ++ b) = tagsForest a ++ tagsForest b := by
  induction a with
  | nil => rfl
  | cons x xs ih => simp [tagsForest_cons, ih]

/-- Unfolding of `capsForest` on a cons. -/
theorem capsForest_cons (t : String) (x : PTree) (xs : List PTree) :
    capsForest t (x :: xs) = capsTree t x ++ capsForest t xs := rfl

/-- The function `capsForest` distributes over append. -/
theorem capsForest_append (t : String) (a b : List PTree) :
    capsForest t (a ++ b) = capsForest t a ++ capsForest t b := by
  induction a with
  | nil => rfl
  | cons x xs ih => simp [capsForest_cons, ih]

/-- A rule without `node` tags produces no parse-tree nodes. -/
theorem tagFree_ok_kids : ∀ (f : Nat) (r : Rule) (s : List Char) (p q : Nat)
    (k : List PTree), tagFree r = true → mrun f r s p = some (.ok q k) → k = [] := by
  intro f
  induction f with
  | zero => intro r s p q k _ h; simp [mrun] at h
  | succ f ih =>
    intro r s p q k hf h
    cases r with
    | eps => simp_all [mrun]
    | never => simp_all [mrun]
    | anyc =>
      simp only [mrun] at h
      split at h <;> simp_all
    | eofR =>
      simp only [mrun] at h
      split at h <;> simp_all
    | pred g =>
      simp only [mrun] at h
      split at h
      · split at h <;> simp_all
      · simp_all
    | cat r1 r2 =>
      simp only [tagFree, Bool.and_eq_true] at hf
      simp only [mrun] at h
      split at h
      · rename_i q1 k1 heq1
        split at h
        · rename_i q2 k2 heq2
          have e1 := ih r1 s p q1 k1 hf.1 heq1
          have e2 := ih r2 s q1 q2 k2 hf.2 heq2
          simp only [Option.some.injEq, MRes.ok.injEq] at h
          subst e1; subst e2
          simp [← h.2]
        · simp_all
        · simp_all
        · simp_all
      · simp_all
      · simp_all
      · simp_all
    | alt r1 r2 =>
      simp only [tagFree, Bool.and_eq_true] at hf
      simp only [mrun] at h
      split at h
      · rename_i q1 k1 heq1
        have e1 := ih r1 s p q1 k1 hf.1 heq1
        simp only [Option.some.injEq, MRes.ok.injEq] at h
        subst e1
        simp [← h.2]
      · exact ih r2 s p q k hf.2 h
      · simp_all
      · simp_all
    | star r1 =>
      simp only [tagFree] at hf
      simp only [mrun] at h
      split at h
      · rename_i q1 k1 heq1
        split at h
        · split at h
          · rename_i hlt _ q2 k2 heq2
            have e1 := ih r1 s p q1 k1 hf heq1
            have e2 := ih (.star r1) s q1 q2 k2 (by simpa [tagFree] using hf) heq2
            simp only [Option.some.injEq, MRes.ok.injEq] at h
            subst e1; subst e2
            simp [← h.2]
          · simp_all
          · simp_all
          · simp_all
        · simp_all
      · simp_all
      · simp_all
      · simp_all
    | notAt r1 =>
      simp only [mrun] at h
      split at h <;> simp_all
    | atR r1 =>
      simp only [mrun] at h
      split at h <;> simp_all
    | must r1 =>
      simp only [tagFree] at hf
      simp only [mrun] at h
      split at h
      · rename_i q1 k1 heq1
        have e1 := ih r1 s p q1 k1 hf heq1
        simp only [Option.some.injEq, MRes.ok.injEq] at h
        subst e1
        simp [← h.2]
      · simp_all
      · simp_all
      · simp_all
    | node t r1 => simp [tagFree] at hf

/-- Every tag of a node produced by a rule occurs syntactically in the rule. -/
theorem mrun_ok_tags : ∀ (f : Nat) (r : Rule) (s : List Char) (p q : Nat)
    (k : List PTree), mrun f r s p = some (.ok q k) →
    ∀ t, t ∈ tagsForest k → t ∈ rtags r := by
  intro f
  induction f with
  | zero => intro r s p q k h; simp [mrun] at h
  | succ f ih =>
    intro r s p q k h t ht
    cases r with
    | eps =>
      simp only [mrun, Option.some.injEq, MRes.ok.injEq] at h
      rw [← h.2] at ht
      simp [tagsForest, tagsTree.tagsForest] at ht
    | never => simp [mrun] at h
    | anyc =>
      simp only [mrun] at h
      split at h
      · simp only [Option.some.injEq, MRes.ok.injEq] at h
        rw [← h.2] at ht; simp [tagsForest, tagsTree.tagsForest] at ht
      · simp at h
    | eofR =>
      simp only [mrun] at h
      split at h
      · simp at h
      · simp only [Option.some.injEq, MRes.ok.injEq] at h
        rw [← h.2] at ht; simp [tagsForest, tagsTree.tagsForest] at ht
    | pred g =>
      simp only [mrun] at h
      split at h
      · split at h
        · simp only [Option.some.injEq, MRes.ok.injEq] at h
          rw [← h.2] at ht; simp [tagsForest, tagsTree.tagsForest] at ht
        · simp at h
      · simp at h
    | cat r1 r2 =>
      simp only [mrun] at h
      split at h
      · rename_i q1 k1 heq1
        split at h
        · rename_i q2 k2 heq2
          simp only [Option.some.injEq, MRes.ok.injEq] at h
          rw [← h.2, tagsForest_append] at ht
          simp only [rtags, List.mem_append]
          rcases List.mem_append.mp ht with h1 | h2
          · exact Or.inl (ih r1 s p q1 k1 heq1 t h1)
          · exact Or.inr (ih r2 s q1 q2 k2 heq2 t h2)
        · simp_all
        · simp_all
        · simp_all
      · simp_all
      · simp_all
      · simp_all
    | alt r1 r2 =>
      simp only [mrun] at h
      split at h
      · rename_i q1 k1 heq1
        simp only [Option.some.injEq, MRes.ok.injEq] at h
        rw [← h.2] at ht
        exact List.mem_append.mpr (Or.inl (ih r1 s p q1 k1 heq1 t ht))
      · exact List.mem_append.mpr (Or.inr (ih r2 s p q k h t ht))
      · simp_all
      · simp_all
    | star r1 =>
      simp only [mrun] at h
      split at h
      · rename_i q1 k1 heq1
        split at h
        · split at h
          · rename_i hlt _ q2 k2 heq2
            simp only [Option.some.injEq, MRes.ok.injEq] at h
            rw [← h.2, tagsForest_append] at ht
            rcases List.mem_append.mp ht with h1 | h2
            · exact ih r1 s p q1 k1 heq1 t h1
            · exact ih (.star r1) s q1 q2 k2 heq2 t h2
          · simp_all
          · simp_all
          · simp_all
        · simp_all
      · simp only [Option.some.injEq, MRes.ok.injEq] at h
        rw [← h.2] at ht; simp [tagsForest, tagsTree.tagsForest] at ht
      · simp_all
      · simp_all
    | notAt r1 =>
      simp only [mrun] at h
      split at h
      · simp at h
      · simp only [Option.some.injEq, MRes.ok.injEq] at h
        rw [← h.2] at ht; simp [tagsForest, tagsTree.tagsForest] at ht
      · simp at h
      · simp at h
    | atR r1 =>
      simp only [mrun] at h
      split at h
      · simp only [Option.some.injEq, MRes.ok.injEq] at h
        rw [← h.2] at ht; simp [tagsForest, tagsTree.tagsForest] at ht
      · simp at h
      · simp at h
      · simp at h
    | must r1 =>
      simp only [mrun] at h
      split at h
      · rename_i q1 k1 heq1
        simp only [Option.some.injEq, MRes.ok.injEq] at h
        rw [← h.2] at ht
        exact ih r1 s p q1 k1 heq1 t ht
      · simp_all
      · simp_all
      · simp_all
    | node t0 r1 =>
      simp only [mrun] at h
      split at h
      · rename_i q1 k1 heq1
        simp only [Option.some.injEq, MRes.ok.injEq] at h
        rw [← h.2] at ht
        simp only [tagsForest, tagsTree.tagsForest, tagsTree, List.append_nil] at ht
        simp only [rtags]
        rcases List.mem_cons.mp ht with h1 | h2
        · exact List.mem_cons.mpr (Or.inl h1)
        · exact List.mem_cons.mpr (Or.inr (ih r1 s p q1 k1 heq1 t h2))
      · simp_all
      · simp_all
      · simp_all

mutual

/-- A tree without tag `t` yields no captures under `t`. -/
theorem capsTree_nil_of_not_mem (t : String) (x : PTree) (h : t ∉ tagsTree x) :
    capsTree t x = [] := by
  cases x with
  | mk tag a b kids =>
    simp only [tagsTree, List.mem_cons, not_or] at h
    simp only [capsTree]
    rw [if_neg (fun e => h.1 (e.symm)), capsForest_nil_of_not_mem t kids h.2]
    rfl

/-- A forest without tag `t` yields no captures under `t`. -/
theorem capsForest_nil_of_not_mem (t : String) (k : List PTree)
    (h : t ∉ tagsForest k) : capsTree.capsForest t k = [] := by
  cases k with
  | nil => rfl
  | cons x xs =>
    rw [tagsForest_cons] at h
    simp only [List.mem_append, not_or] at h
    simp only [capsTree.capsForest]
    rw [capsTree_nil_of_not_mem t x h.1, capsForest_nil_of_not_mem t xs h.2]
    rfl

end

/-- The empty substring. -/
theorem slice_self (s : List Char) (p : Nat) : slice s p p = [] := by
  simp [slice]

/-- A one-character substring is the character at its start. -/
theorem slice_single {s : List Char} {p : Nat} {c : Char} (h : s[p]? = some c) :
    slice s p (p + 1) = [c] := by
  have hp : p < s.length := by
    by_contra hge
    rw [List.getElem?_eq_none (by omega)] at h
    cases h
  have hc : s[p] = c := by
    rw [List.getElem?_eq_getElem hp] at h
    exact Option.some.inj h
  simp only [slice, Nat.add_sub_cancel_left]
  rw [List.drop_eq_getElem_cons hp, hc]
  rfl

/-- Substrings of consecutive ranges concatenate. -/
theorem slice_split {s : List Char} {p q r : Nat} (h1 : p ≤ q) (h2 : q ≤ r) :
    slice s p r = slice s p q ++ slice s q r := by
  simp only [slice]
  have e1 : r - p = (q - p) + (r - q) := by omega
  rw [e1, List.take_add, List.drop_drop]
  have e2 : p + (q - p) = q := by omega
  rw [e2]

/-- Inversion of a successful `cat`: both halves matched, the cursor moved
through an intermediate point and the node lists concatenate. -/
theorem cat_ok_inv {f : Nat} {r1 r2 : Rule} {s : List Char} {p q : Nat}
    {k : List PTree} (h : mrun f (.cat r1 r2) s p = some (.ok q k)) :
    ∃ g q1 k1 k2, f = g + 1 ∧ mrun g r1 s p = some (.ok q1 k1) ∧
      mrun g r2 s q1 = some (.ok q k2) ∧ k = k1 ++ k2 := by
  cases f with
  | zero => simp [mrun] at h
  | succ g =>
    simp only [mrun] at h
    split at h
    · rename_i q1 k1 heq1
      split at h
      · rename_i q2 k2 heq2
        simp only [Option.some.injEq, MRes.ok.injEq] at h
        refine ⟨g, q1, k1, k2, rfl, heq1, ?_, h.2.symm⟩
        rw [← h.1]
        exact heq2
      · simp at h
      · simp at h
      · simp at h
    · simp at h
    · simp at h
    · simp at h

/-- Inversion of a successful tagged rule: the body matched the same span and
the single produced node wraps the body's nodes. -/
theorem node_ok_inv {f : Nat} {t : String} {r : Rule} {s : List Char}
    {p q : Nat} {k : List PTree} (h : mrun f (.node t r) s p = some (.ok q k)) :
    ∃ g k1, f = g + 1 ∧ mrun g r s p = some (.ok q k1) ∧
      k = [PTree.mk t p q k1] := by
  cases f with
  | zero => simp [mrun] at h
  | succ g =>
    simp only [mrun] at h
    split at h
    · rename_i q1 k1 heq1
      simp only [Option.some.injEq, MRes.ok.injEq] at h
      refine ⟨g, k1, rfl, ?_, ?_⟩
      · rw [← h.1]; exact heq1
      · rw [← h.2, ← h.1]
    · simp at h
    · simp at h
    · simp at h

/-- Inversion of a successful ordered choice: either the first alternative
matched with the same result (commit), or it failed locally and the second
matched. -/
theorem alt_ok_inv {f : Nat} {r1 r2 : Rule} {s : List Char} {p q : Nat}
    {k : List PTree} (h : mrun f (.alt r1 r2) s p = some (.ok q k)) :
    ∃ g, f = g + 1 ∧ (mrun g r1 s p = some (.ok q k) ∨
      (mrun g r1 s p = some (.nok p) ∧ mrun g r2 s p = some (.ok q k))) := by
  cases f with
  | zero => simp [mrun] at h
  | succ g =>
    simp only [mrun] at h
    split at h
    · rename_i q1 k1 heq1
      simp only [Option.some.injEq, MRes.ok.injEq] at h
      refine ⟨g, rfl, Or.inl ?_⟩
      rw [← h.1, ← h.2]
      exact heq1
    · rename_i q1 heq1
      have e := mrun_nok_eq g r1 s p q1 heq1
      subst e
      exact ⟨g, rfl, Or.inr ⟨heq1, h⟩⟩
    · simp at h
    · simp at h

/-- Inversion of a successful character predicate. -/
theorem pred_ok_inv {f : Nat} {g : Char → Bool} {s : List Char} {p q : Nat}
    {k : List PTree} (h : mrun f (.pred g) s p = some (.ok q k)) :
    ∃ c, s[p]? = some c ∧ g c = true ∧ q = p + 1 ∧ k = [] := by
  cases f with
  | zero => simp [mrun] at h
  | succ f0 =>
    simp only [mrun] at h
    split at h
    · rename_i c hc
      split at h
      · rename_i hg
        simp only [Option.some.injEq, MRes.ok.injEq] at h
        exact ⟨c, hc, hg, h.1.symm, h.2.symm⟩
      · simp at h
    · simp at h

/-- Inversion of a successful `eps`. -/
theorem eps_ok_inv {f : Nat} {s : List Char} {p q : Nat} {k : List PTree}
    (h : mrun f .eps s p = some (.ok q k)) : q = p ∧ k = [] := by
  cases f with
  | zero => simp [mrun] at h
  | succ f0 =>
    simp only [mrun, Option.some.injEq, MRes.ok.injEq] at h
    exact ⟨h.1.symm, h.2.symm⟩

/-- A successful literal consumed exactly its own characters. -/
theorem strR_ok : ∀ (cs : List Char) (f : Nat) (s : List Char) (p q : Nat)
    (k : List PTree), mrun f (strR cs) s p = some (.ok q k) →
    q = p + cs.length ∧ slice s p q = cs ∧ k = [] := by
  intro cs
  induction cs with
  | nil =>
    intro f s p q k h
    obtain ⟨hq, hk⟩ := eps_ok_inv (by simpa [strR] using h)
    subst hk
    rw [hq]
    exact ⟨by simp, slice_self s p, rfl⟩
  | cons c rest ih =>
    intro f s p q k h
    have h0 : mrun f (.cat (chr c) (strR rest)) s p = some (.ok q k) := by
      simpa [strR] using h
    obtain ⟨g, q1, k1, k2, rfl, h1, h2, rfl⟩ := cat_ok_inv h0
    obtain ⟨c0, hc0, hg, hq1, hk1⟩ := pred_ok_inv (by simpa [chr] using h1)
    have hcc : c0 = c := by simpa using hg
    subst hcc; subst hq1; subst hk1
    obtain ⟨hq, hsl, hk2⟩ := ih g s (p + 1) q k2 h2
    subst hk2
    refine ⟨by simp [hq]; omega, ?_, rfl⟩
    rw [slice_split (Nat.le_succ p) (by omega), slice_single hc0, hsl]
    rfl

/-- A successful repetition of a character predicate produces no nodes and
every consumed character satisfies the predicate. -/
theorem star_pred_all : ∀ (f : Nat) (g : Char → Bool) (s : List Char)
    (p q : Nat) (k : List PTree), mrun f (.star (.pred g)) s p = some (.ok q k) →
    k = [] ∧ p ≤ q ∧ (slice s p q).all g = true := by
  intro f
  induction f with
  | zero => intro g s p q k h; simp [mrun] at h
  | succ f ih =>
    intro g s p q k h
    simp only [mrun] at h
    split at h
    · rename_i q1 k1 heq1
      obtain ⟨c, hc, hgc, hq1, hk1⟩ := pred_ok_inv heq1
      subst hq1; subst hk1
      rw [if_pos (Nat.lt_succ_self p)] at h
      split at h
      · rename_i q2 k2 heq2
        obtain ⟨hk2, hle2, hall2⟩ := ih g s (p + 1) q2 k2 heq2
        subst hk2
        simp only [Option.some.injEq, MRes.ok.injEq] at h
        obtain ⟨hq, hk⟩ := h
        subst hq
        refine ⟨by simp [← hk], by omega, ?_⟩
        rw [slice_split (Nat.le_succ p) hle2, slice_single hc]
        simp [hgc, hall2]
      · simp at h
      · simp at h
      · simp at h
    · simp only [Option.some.injEq, MRes.ok.injEq] at h
      obtain ⟨hq, hk⟩ := h
      subst hq
      exact ⟨hk.symm, Nat.le_refl p, by rw [slice_self]; rfl⟩
    · simp at h
    · simp at h

/-- A successful PEGTL `identifier` matches a single identifier lexeme and
produces no nodes. -/
theorem identifier_ok {f : Nat} {s : List Char} {p q : Nat} {k : List PTree}
    (h : mrun f identifier s p = some (.ok q k)) :
    isIdentStr (slice s p q) = true ∧ k = [] := by
  obtain ⟨g, q1, k1, k2, rfl, h1, h2, rfl⟩ :=
    cat_ok_inv (by simpa [identifier] using h)
  obtain ⟨c, hc, hgc, hq1, hk1⟩ := pred_ok_inv h1
  subst hq1; subst hk1
  obtain ⟨hk2, hle2, hall2⟩ := star_pred_all g identOtherC s (p + 1) q k2 h2
  subst hk2
  refine ⟨?_, rfl⟩
  rw [slice_split (Nat.le_succ p) hle2, slice_single hc]
  simp only [List.cons_append, List.nil_append, isIdentStr, Bool.and_eq_true]
  exact ⟨hgc, by simpa [List.all_eq_true] using hall2⟩

/-- If the query tag does not occur syntactically in a rule, a successful run
of the rule yields no captures under that tag. -/
theorem caps_nil_of_run {f : Nat} {r : Rule} {s : List Char} {p q : Nat}
    {k : List PTree} {t : String} (h : mrun f r s p = some (.ok q k))
    (ht : t ∉ rtags r) : capsForest t k = [] := by
  have hm : t ∉ tagsForest k := fun hmem => ht (mrun_ok_tags f r s p q k h t hmem)
  exact capsForest_nil_of_not_mem t k hm

/-! The claims. -/

/-- C1, counterexample: on a `.stabs` line whose quoted field has no
terminating quote the body of the top-level rule fails to match, and the
top-level rule `grammar` — `must<...>` — does not report a recoverable
non-match: it raises a `parse_error` (`errK`, the modelled exception), which
is a different outcome than the non-match `nokK` the claim asserts. -/
theorem c1_counterexample :
    resKind (mrun 500 grammar_body badLine 0) = RKind.nokK ∧
    resKind (mrun 501 grammar badLine 0) = RKind.errK ∧
    RKind.errK ≠ RKind.nokK := by
  refine ⟨by decide, by decide, by decide⟩

/-- C1, amended: for every input line and position on which the body of the
top-level rule fails to match (including failing the end-of-input
requirement), the top-level rule `grammar` raises a `parse_error` that
propagates to the caller (the `must<...>` wrapper converts the local failure
into a global error); no parse tree is produced.  Internal combinator
failures are still locally recovered by rewinding. -/
theorem c1_top_level_failure_raises (f : Nat) (s : List Char) (p : Nat)
    (h : resKind (mrun f grammar_body s p) = RKind.nokK) :
    resKind (mrun (f + 1) grammar s p) = RKind.errK := by
  cases hr : mrun f grammar_body s p with
  | none => rw [hr] at h; simp [resKind] at h
  | some m =>
    cases m with
    | ok q k => rw [hr] at h; simp [resKind] at h
    | nok q => simp [grammar, mrun, hr, resKind]
    | err => rw [hr] at h; simp [resKind] at h

/-- C1, witness: the amended theorem applied to the unterminated-quote line. -/
theorem c1_witness : resKind (mrun 501 grammar badLine 0) = RKind.errK :=
  c1_top_level_failure_raises 500 badLine 0 (by decide)

/-- C2, counterexample: on the payload `"bool:t22=eFalse:0,True:1,;"` the
captured member-name sequence is `eFalse, True`, not `False, True` as the
claim asserts — the leading `e` is consumed by the first member's
`enum_value_id`, not by the production. -/
theorem c2_counterexample :
    capTexts "enum_value_id" enumPay (treeOf (mrun 500 enum_ enumPay 0)) =
      ["eFalse".toList, "True".toList] ∧
    ["eFalse".toList, "True".toList] ≠ ["False".toList, "True".toList] := by
  refine ⟨by decide, by decide⟩

/-- C2, amended: the enum production matches
`name ':' 't' id '='` followed directly by one or more
`(memberName ':' value ',')` pairs and a final `';'` — there is no literal
`'e'` marker; consequently for `"bool:t22=eFalse:0,True:1,;"` the whole
payload matches with name `bool`, id 22, and captured member sequence
`(eFalse, 0), (True, 1)`: the leading `e` is absorbed into the first
member's name. -/
theorem c2_enum_members :
    isOk (mrun 500 enum_ enumPay 0) = true ∧
    endOf (mrun 500 enum_ enumPay 0) = enumPay.length ∧
    capTexts "enum_name" enumPay (treeOf (mrun 500 enum_ enumPay 0)) =
      ["bool".toList] ∧
    (capTexts "enum_id" enumPay (treeOf (mrun 500 enum_ enumPay 0))).map stoi =
      [22] ∧
    capTexts "enum_value_id" enumPay (treeOf (mrun 500 enum_ enumPay 0)) =
      ["eFalse".toList, "True".toList] ∧
    (capTexts "enum_value_num" enumPay
      (treeOf (mrun 500 enum_ enumPay 0))).map stoi = [0, 1] := by
  refine ⟨by decide, by decide, by decide, by decide, by decide, by decide⟩

/-- C6: `"int:t7"` parses as a type definition consuming the whole payload
with name `int`, id 7 and no range; `"char:t13=r13;0;255;"` parses to
completion (within finite fuel, hence without non-termination) with name
`char`, id 13, and the self-referential range `refId 13, lower 0, upper 255`. -/
theorem c6_type_def_examples :
    isOk (mrun 500 type_def payInt 0) = true ∧
    endOf (mrun 500 type_def payInt 0) = payInt.length ∧
    capTexts "type_def_name" payInt (treeOf (mrun 500 type_def payInt 0)) =
      ["int".toList] ∧
    (capTexts "type_def_id" payInt (treeOf (mrun 500 type_def payInt 0))).map stoi =
      [7] ∧
    capTexts "type_def_range" payInt (treeOf (mrun 500 type_def payInt 0)) = [] ∧
    isOk (mrun 500 type_def payChar 0) = true ∧
    endOf (mrun 500 type_def payChar 0) = payChar.length ∧
    capTexts "type_def_name" payChar (treeOf (mrun 500 type_def payChar 0)) =
      ["char".toList] ∧
    (capTexts "type_def_id" payChar (treeOf (mrun 500 type_def payChar 0))).map stoi =
      [13] ∧
    (capTexts "type_def_range_def_id" payChar
      (treeOf (mrun 500 type_def payChar 0))).map stoi = [13] ∧
    (capTexts "type_def_range_lower_bound" payChar
      (treeOf (mrun 500 type_def payChar 0))).map stoi = [0] ∧
    (capTexts "type_def_range_upper_bound" payChar
      (treeOf (mrun 500 type_def payChar 0))).map stoi = [255] := by
  refine ⟨by decide, by decide, by decide, by decide, by decide, by decide,
    by decide, by decide, by decide, by decide, by decide, by decide⟩

/-- C7: the first test line parses as a `.stabs` directive with string
payload `src/vectrexy.h`, record type 132, other 0, desc 0 and value
`Ltext2`; the second parses as a `.stabd` directive with record type 68,
other 0 and desc 61 — its commas are padded with horizontal whitespace. -/
theorem c7_directive_examples :
    isOk (mrun 500 grammar line1 0) = true ∧
    (capsForest "stabs_directive" (treeOf (mrun 500 grammar line1 0))).length = 1 ∧
    capTexts "include_file" line1 (treeOf (mrun 500 grammar line1 0)) =
      ["src/vectrexy.h".toList] ∧
    (capTexts "param_type" line1 (treeOf (mrun 500 grammar line1 0))).map stoi =
      [132] ∧
    (capTexts "param_other" line1 (treeOf (mrun 500 grammar line1 0))).map stoi =
      [0] ∧
    (capTexts "param_desc" line1 (treeOf (mrun 500 grammar line1 0))).map stoi =
      [0] ∧
    capTexts "param_value" line1 (treeOf (mrun 500 grammar line1 0)) =
      ["Ltext2".toList] ∧
    isOk (mrun 500 grammar line2 0) = true ∧
    (capsForest "stabd_directive" (treeOf (mrun 500 grammar line2 0))).length = 1 ∧
    (capTexts "param_type" line2 (treeOf (mrun 500 grammar line2 0))).map stoi =
      [68] ∧
    (capTexts "param_other" line2 (treeOf (mrun 500 grammar line2 0))).map stoi =
      [0] ∧
    (capTexts "param_desc" line2 (treeOf (mrun 500 grammar line2 0))).map stoi =
      [61] := by
  refine ⟨by decide, by decide, by decide, by decide, by decide, by decide,
    by decide, by decide, by decide, by decide, by decide, by decide⟩

/-- C8: whenever any rule fails locally on any input at any position, the
reported cursor is exactly the position the rule started at — no rule
partially consumes input on failure; every combinator rewinds fully. -/
theorem c8_no_partial_consumption (f : Nat) (r : Rule) (s : List Char) (p : Nat)
    (h : resKind (mrun f r s p) = RKind.nokK) :
    nokPos (mrun f r s p) = p := by
  cases hr : mrun f r s p with
  | none => rw [hr] at h; simp [resKind] at h
  | some m =>
    cases m with
    | ok q k => rw [hr] at h; simp [resKind] at h
    | nok q => simp [nokPos, mrun_nok_eq f r s p q hr]
    | err => rw [hr] at h; simp [resKind] at h

/-- C8, witness: the whole grammar body fails on the unterminated-quote line
with the cursor still at 0. -/
theorem c8_witness : nokPos (mrun 500 grammar_body badLine 0) = 0 :=
  c8_no_partial_consumption 500 grammar_body badLine 0 (by decide)

mutual

/-- The code's per-node dump equals the specification dump with one space of
indent per depth. -/
theorem printNode_eq_dump1 (n : Node) (d : Nat) :
    printNodeLines n d = dumpNodeW 1 n d := by
  cases n with
  | mk t x cs =>
    simp only [printNodeLines, dumpNodeW, Nat.one_mul]
    rw [printForest_eq_dump1 cs (d + 1)]

/-- Forest version of `printNode_eq_dump1`. -/
theorem printForest_eq_dump1 (k : List Node) (d : Nat) :
    printNodeLines.printForestLines k d = dumpNodeW.dumpForestW 1 k d := by
  cases k with
  | nil => rfl
  | cons c cs =>
    simp only [printNodeLines.printForestLines, dumpNodeW.dumpForestW]
    rw [printNode_eq_dump1 c d, printForest_eq_dump1 cs d]

end

mutual

/-- The dump prints exactly one line per node. -/
theorem printNode_length (n : Node) (d : Nat) :
    (printNodeLines n d).length = countNode n := by
  cases n with
  | mk t x cs =>
    simp only [printNodeLines, countNode, List.length_cons]
    rw [printForest_length cs (d + 1)]
    omega

/-- Forest version of `printNode_length`. -/
theorem printForest_length (k : List Node) (d : Nat) :
    (printNodeLines.printForestLines k d).length = countNode.countForest k := by
  cases k with
  | nil => rfl
  | cons c cs =>
    simp only [printNodeLines.printForestLines, countNode.countForest,
      List.length_append]
    rw [printNode_length c d, printForest_length cs d]

end

/-- C3, counterexample: on the parse tree of the second test line (whose
retained nodes are `stabd_directive` with child `source_current_line`), the
dump printed by `PrintParseTree` differs from the two-spaces-per-depth format
the claim asserts: the depth-1 node is indented by a single space. -/
theorem c3_counterexample :
    PrintParseTree (parseRoot line2) ≠ dumpTreeW 2 (parseRoot line2) := by
  decide

/-- C3, amended: for every parse tree, the diagnostic dump prints one line
per retained node in the exact format `"<indent><ruleTag>: \x60<matchedText>\x60"`,
where the indent is ONE space per tree depth (the C++ loop prints a single
space per depth level) and the root's direct children are printed at depth 0
(zero indent); a final empty line follows. -/
theorem c3_dump_format (t x : String) (cs : List Node) :
    PrintParseTree (Node.mk t x cs) = dumpTreeW 1 (Node.mk t x cs) ∧
    (PrintParseTree (Node.mk t x cs)).length = countForest cs + 1 := by
  constructor
  · simp only [PrintParseTree, dumpTreeW]
    rw [show printForestLines cs 0 = printNodeLines.printForestLines cs 0 from rfl,
      show dumpForestW 1 cs 0 = dumpNodeW.dumpForestW 1 cs 0 from rfl,
      printForest_eq_dump1 cs 0]
  · simp only [PrintParseTree, List.length_append, List.length_cons,
      List.length_nil]
    rw [show printForestLines cs 0 = printNodeLines.printForestLines cs 0 from rfl,
      show countForest cs = countNode.countForest cs from rfl,
      printForest_length cs 0]

/-- A tagged `identifier` rule matches exactly one identifier lexeme. -/
theorem node_ident_ok {f : Nat} {t : String} {s : List Char} {p : Nat}
    (h : isOk (mrun f (.node t identifier) s p) = true) :
    isIdentStr (slice s p (endOf (mrun f (.node t identifier) s p))) = true := by
  cases hr : mrun f (.node t identifier) s p with
  | none => rw [hr] at h; simp [isOk] at h
  | some m =>
    cases m with
    | ok q k =>
      obtain ⟨g, k1, hf, hin, hk⟩ := node_ok_inv hr
      simp only [endOf]
      exact (identifier_ok hin).1
    | nok q => rw [hr] at h; simp [isOk] at h
    | err => rw [hr] at h; simp [isOk] at h

/-- C5: `lsym` is the ordered choice `struct_, array, enum_, type_def,
variable` in exactly that order, committing to the first success: whenever
`struct_` matches, `lsym` returns exactly the `struct_` result (wrapped in
the `lsym` node) — the later alternatives are never explored. -/
theorem c5_lsym_commits_to_struct (f : Nat) (s : List Char) (p : Nat)
    (h : isOk (mrun f struct_ s p) = true) :
    mrun (f + 2) lsym s p =
      some (.ok (endOf (mrun f struct_ s p))
        [PTree.mk "lsym" p (endOf (mrun f struct_ s p))
          (treeOf (mrun f struct_ s p))]) := by
  cases hr : mrun f struct_ s p with
  | none => rw [hr] at h; simp [isOk] at h
  | some m =>
    cases m with
    | ok q k =>
      simp only [endOf, treeOf]
      rw [show f + 2 = (f + 1) + 1 from rfl]
      simp only [lsym, mrun, hr]
    | nok q => rw [hr] at h; simp [isOk] at h
    | err => rw [hr] at h; simp [isOk] at h

/-- C5, witness: the commit theorem applied to the struct payload
`"Bar:T25=s3x:7,0,8;y:7,8,8;z:7,16,8;;"`. -/
theorem c5_witness :
    mrun 502 lsym payStruct 0 =
      some (.ok (endOf (mrun 500 struct_ payStruct 0))
        [PTree.mk "lsym" 0 (endOf (mrun 500 struct_ payStruct 0))
          (treeOf (mrun 500 struct_ payStruct 0))]) :=
  c5_lsym_commits_to_struct 500 payStruct 0 (by decide)

/-- C10: the multi-word payload `"complex long double:t3=R3;8;0;"` matches
`type_def` in full with the full multi-word `type_def_name` capture
`complex long double` (one or more identifiers each optionally followed by
blanks), while on every input a successful `variable_name`, `array_name`,
`enum_name` or `struct_name` match is a single identifier lexeme (hence
contains no blanks). -/
theorem c10_names :
    (isOk (mrun 500 type_def payMulti 0) = true ∧
     endOf (mrun 500 type_def payMulti 0) = payMulti.length ∧
     capTexts "type_def_name" payMulti (treeOf (mrun 500 type_def payMulti 0)) =
       ["complex long double".toList]) ∧
    (∀ f s p, isOk (mrun f variable_name s p) = true →
       isIdentStr (slice s p (endOf (mrun f variable_name s p))) = true) ∧
    (∀ f s p, isOk (mrun f array_name s p) = true →
       isIdentStr (slice s p (endOf (mrun f array_name s p))) = true) ∧
    (∀ f s p, isOk (mrun f enum_name s p) = true →
       isIdentStr (slice s p (endOf (mrun f enum_name s p))) = true) ∧
    (∀ f s p, isOk (mrun f struct_name s p) = true →
       isIdentStr (slice s p (endOf (mrun f struct_name s p))) = true) := by
  refine ⟨⟨by decide, by decide, by decide⟩, ?_, ?_, ?_, ?_⟩
  · intro f s p h
    exact node_ident_ok h
  · intro f s p h
    exact node_ident_ok h
  · intro f s p h
    exact node_ident_ok h
  · intro f s p h
    exact node_ident_ok h

/-- Unfolding of `capsForest` on the empty forest. -/
theorem capsForest_nil (t : String) : capsForest t [] = [] := rfl

/-- Unfolding of `capsTree` on a node. -/
theorem capsTree_mk (t tag : String) (a b : Nat) (kids : List PTree) :
    capsTree t (PTree.mk tag a b kids) =
      (if tag = t then [(a, b)] else []) ++ capsForest t kids := rfl

/-- C4, counterexample: on the payload `"complex long double:t3=R3;8;0;"`
`type_def` succeeds with a range present, whose captured fields are refId 3,
lowerBound 8, upperBound 0, but the substring consumed by `type_def_range` is
`"=R3;8;0;"`, while the claim's concatenation `"=r" + 3 + ";" + 8 + ";" + 0 +
";"` is `"=r3;8;0;"` — it differs in the range-marker character. -/
theorem c4_counterexample :
    capTexts "type_def_range" payMulti (treeOf (mrun 500 type_def payMulti 0)) =
      ["=R3;8;0;".toList] ∧
    capTexts "type_def_range_def_id" payMulti
      (treeOf (mrun 500 type_def payMulti 0)) = ["3".toList] ∧
    capTexts "type_def_range_lower_bound" payMulti
      (treeOf (mrun 500 type_def payMulti 0)) = ["8".toList] ∧
    capTexts "type_def_range_upper_bound" payMulti
      (treeOf (mrun 500 type_def payMulti 0)) = ["0".toList] ∧
    "=r".toList ++ "3".toList ++ ";".toList ++ "8".toList ++ ";".toList ++
      "0".toList ++ ";".toList ≠ "=R3;8;0;".toList := by
  refine ⟨by decide, by decide, by decide, by decide, by decide⟩

/-- C4, amended: whenever `type_def_range` matches, concatenating `"="`, the
matched range-marker character (`'r'` or `'R'`), the refId field text, `";"`,
the lowerBound field text, `";"`, the upperBound field text and `";"`
reproduces, character for character, the exact substring of the input
consumed by `type_def_range`; with a lowercase `'r'` marker this is the
claim's `"=r" + refId + ";" + lowerBound + ";" + upperBound + ";"`. -/
theorem c4_range_round_trip (f : Nat) (s : List Char) (p : Nat)
    (h : isOk (mrun f type_def_range s p) = true) :
    ∃ c rj lo hi,
      (c = 'r' ∨ c = 'R') ∧
      capTexts "type_def_range_def_id" s (treeOf (mrun f type_def_range s p)) =
        [rj] ∧
      capTexts "type_def_range_lower_bound" s
        (treeOf (mrun f type_def_range s p)) = [lo] ∧
      capTexts "type_def_range_upper_bound" s
        (treeOf (mrun f type_def_range s p)) = [hi] ∧
      slice s p (endOf (mrun f type_def_range s p)) =
        '=' :: c :: (rj ++ ';' :: (lo ++ ';' :: (hi ++ [';']))) := by
  cases hr : mrun f type_def_range s p with
  | none => rw [hr] at h; simp [isOk] at h
  | some m =>
    cases m with
    | nok q => rw [hr] at h; simp [isOk] at h
    | err => rw [hr] at h; simp [isOk] at h
    | ok q k =>
      simp only [endOf, treeOf]
      obtain ⟨g0, kb, hf0, hb, hkk⟩ := node_ok_inv (by simpa [type_def_range] using hr)
      subst hkk
      obtain ⟨g1, p1, kA, kR1, hg1, hA, hR1, hkb⟩ := cat_ok_inv hb
      subst hkb
      obtain ⟨c0, hc0, hbeq0, hp1, hkA⟩ := pred_ok_inv (by simpa [chr] using hA)
      have hc0e : c0 = '=' := by simpa using hbeq0
      subst hc0e; subst hp1; subst hkA
      obtain ⟨g2, p2, kB, kR2, hg2, hB, hR2, hkR1⟩ := cat_ok_inv hR1
      subst hkR1
      obtain ⟨c1, hc1, hbeq1, hp2, hkB⟩ := pred_ok_inv hB
      have hc1e : c1 = 'r' ∨ c1 = 'R' := by
        rcases Bool.or_eq_true_iff.mp hbeq1 with h1 | h1
        · exact Or.inl (by simpa using h1)
        · exact Or.inr (by simpa using h1)
      subst hp2; subst hkB
      obtain ⟨g3, p3, kC, kR3, hg3, hC, hR3, hkR2⟩ := cat_ok_inv hR2
      subst hkR2
      obtain ⟨g3b, kC1, hf3, hCd, hkC⟩ := node_ok_inv (by simpa [type_def_range_def_id] using hC)
      have hkC1 : kC1 = [] := tagFree_ok_kids g3b digits s _ p3 kC1 (by decide) hCd
      subst hkC1; subst hkC
      have hle1 : p + 1 + 1 ≤ p3 := mrun_ok_le _ _ s _ p3 _ hC
      obtain ⟨g4, p4, kD, kR4, hg4, hD, hR4, hkR3⟩ := cat_ok_inv hR3
      subst hkR3
      obtain ⟨c2, hc2, hbeq2, hp4, hkD⟩ := pred_ok_inv (by simpa [chr] using hD)
      have hc2e : c2 = ';' := by simpa using hbeq2
      subst hc2e; subst hp4; subst hkD
      obtain ⟨g5, p5, kE, kR5, hg5, hE, hR5, hkR4⟩ := cat_ok_inv hR4
      subst hkR4
      obtain ⟨g5b, kE1, hf5, hEd, hkE⟩ := node_ok_inv (by simpa [type_def_range_lower_bound] using hE)
      have hkE1 : kE1 = [] := tagFree_ok_kids g5b digits s _ p5 kE1 (by decide) hEd
      subst hkE1; subst hkE
      have hle2 : p3 + 1 ≤ p5 := mrun_ok_le _ _ s _ p5 _ hE
      obtain ⟨g6, p6, kF, kR6, hg6, hF, hR6, hkR5⟩ := cat_ok_inv hR5
      subst hkR5
      obtain ⟨c3, hc3, hbeq3, hp6, hkF⟩ := pred_ok_inv (by simpa [chr] using hF)
      have hc3e : c3 = ';' := by simpa using hbeq3
      subst hc3e; subst hp6; subst hkF
      obtain ⟨g7, p7, kG, kH, hg7, hG, hH, hkR6⟩ := cat_ok_inv hR6
      subst hkR6
      obtain ⟨g7b, kG1, hf7, hGd, hkG⟩ := node_ok_inv (by simpa [type_def_range_upper_bound] using hG)
      have hkG1 : kG1 = [] := tagFree_ok_kids g7b digits s _ p7 kG1 (by decide) hGd
      subst hkG1; subst hkG
      have hle3 : p5 + 1 ≤ p7 := mrun_ok_le _ _ s _ p7 _ hG
      obtain ⟨c4, hc4, hbeq4, hq, hkH⟩ := pred_ok_inv (by simpa [chr] using hH)
      have hc4e : c4 = ';' := by simpa using hbeq4
      subst hc4e; subst hq; subst hkH
      refine ⟨c1, slice s (p + 1 + 1) p3, slice s (p3 + 1) p5, slice s (p5 + 1) p7,
        hc1e, ?_, ?_, ?_, ?_⟩
      · simp [capTexts, capsForest_cons, capsTree_mk, capsForest_nil, capsForest_append]
      · simp [capTexts, capsForest_cons, capsTree_mk, capsForest_nil, capsForest_append]
      · simp [capTexts, capsForest_cons, capsTree_mk, capsForest_nil, capsForest_append]
      · rw [slice_split (show p ≤ p + 1 by omega) (show p + 1 ≤ p7 + 1 by omega),
          slice_single hc0,
          slice_split (show p + 1 ≤ p + 1 + 1 by omega) (show p + 1 + 1 ≤ p7 + 1 by omega),
          slice_single hc1,
          slice_split (show p + 1 + 1 ≤ p3 by omega) (show p3 ≤ p7 + 1 by omega),
          slice_split (show p3 ≤ p3 + 1 by omega) (show p3 + 1 ≤ p7 + 1 by omega),
          slice_single hc2,
          slice_split (show p3 + 1 ≤ p5 by omega) (show p5 ≤ p7 + 1 by omega),
          slice_split (show p5 ≤ p5 + 1 by omega) (show p5 + 1 ≤ p7 + 1 by omega),
          slice_single hc3,
          slice_split (show p5 + 1 ≤ p7 by omega) (show p7 ≤ p7 + 1 by omega),
          slice_single hc4]
        simp

/-- C4, witness: the amended round-trip theorem applied to the lone range
`"=r13;0;255;"`. -/
theorem c4_witness :
    ∃ c rj lo hi,
      (c = 'r' ∨ c = 'R') ∧
      capTexts "type_def_range_def_id" payRange
        (treeOf (mrun 500 type_def_range payRange 0)) = [rj] ∧
      capTexts "type_def_range_lower_bound" payRange
        (treeOf (mrun 500 type_def_range payRange 0)) = [lo] ∧
      capTexts "type_def_range_upper_bound" payRange
        (treeOf (mrun 500 type_def_range payRange 0)) = [hi] ∧
      slice payRange 0 (endOf (mrun 500 type_def_range payRange 0)) =
        '=' :: c :: (rj ++ ';' :: (lo ++ ';' :: (hi ++ [';']))) :=
  c4_range_round_trip 500 payRange 0 (by decide)

/-- C9: a successful `.stabd` directive match always has the literal `68` as
the substring of its `param_type` (record-type) field, and a successful
`.stabs` directive match has either `128` as its record-type field together
with a quoted payload matched by `lsym`, or `132` together with a quoted
payload matched by `include_file` (the file-path shape); hence a directive
line carrying any other record-type value cannot match, and the top-level
grammar rule fails on it. -/
theorem c9_record_types (f : Nat) (s : List Char) (p : Nat) :
    (isOk (mrun f stabd_directive s p) = true →
      capTexts "param_type" s (treeOf (mrun f stabd_directive s p)) =
        ["68".toList]) ∧
    (isOk (mrun f stabs_directive s p) = true →
      (capTexts "param_type" s (treeOf (mrun f stabs_directive s p)) =
          ["128".toList] ∧
        (capsForest "lsym" (treeOf (mrun f stabs_directive s p))).length = 1) ∨
      (capTexts "param_type" s (treeOf (mrun f stabs_directive s p)) =
          ["132".toList] ∧
        (capsForest "include_file"
          (treeOf (mrun f stabs_directive s p))).length = 1)) := by
  constructor
  · intro h
    cases hr : mrun f stabd_directive s p with
    | none => rw [hr] at h; simp [isOk] at h
    | some m =>
      cases m with
      | nok q => rw [hr] at h; simp [isOk] at h
      | err => rw [hr] at h; simp [isOk] at h
      | ok q k =>
        simp only [treeOf]
        obtain ⟨g0, kb, hf0, hb, hkk⟩ := node_ok_inv (by simpa [stabd_directive] using hr)
        subst hkk
        simp only [stabd_directive_line, stabd_directive_for] at hb
        obtain ⟨g1, a1, kA, kR1, hg1, hA, hR1, hkb⟩ := cat_ok_inv hb
        subst hkb
        obtain ⟨g2, b1, kB, kC, hg2, hB, hC, hkR1⟩ := cat_ok_inv hR1
        subst hkR1
        have hkAnil : capsForest "param_type" kA = [] :=
          caps_nil_of_run hA (by decide)
        have hkCnil : capsForest "param_type" kC = [] :=
          caps_nil_of_run hC (by decide)
        obtain ⟨g2b, kB1, hf2, hBs, hkB⟩ := node_ok_inv (by simpa [param_type] using hB)
        obtain ⟨hb1, hsl, hkB1⟩ := strR_ok _ _ _ _ _ _ hBs
        subst hkB1; subst hkB
        simp [capTexts, capsForest_cons, capsTree_mk, capsForest_nil,
          capsForest_append, hkAnil, hkCnil, hsl]
  · intro h
    cases hr : mrun f stabs_directive s p with
    | none => rw [hr] at h; simp [isOk] at h
    | some m =>
      cases m with
      | nok q => rw [hr] at h; simp [isOk] at h
      | err => rw [hr] at h; simp [isOk] at h
      | ok q k =>
        simp only [treeOf]
        obtain ⟨g0, kb, hf0, hb, hkk⟩ := node_ok_inv (by simpa [stabs_directive] using hr)
        subst hkk
        obtain ⟨g1, hf1, halt⟩ := alt_ok_inv hb
        have main :
            ∀ (pay : Rule) (ts : List Char),
              mrun g1 (stabs_directive_for pay (strR ts) DEFAULT_PARAM_OTHER_RULE
                DEFAULT_PARAM_DESC_RULE DEFAULT_PARAM_VALUE_RULE) s p =
                some (.ok q kb) →
              "param_type" ∉ rtags pay →
              ∃ u v kps,
                kb = kps ∧
                capsForest "param_type" [PTree.mk "stabs_directive" p q kps] =
                  [(u, v)] ∧ slice s u v = ts := by
          intro pay ts hvar hpay
          simp only [stabs_directive_for] at hvar
          obtain ⟨h1, a1, kA, kR1, he1, hA, hR1, hkb⟩ := cat_ok_inv hvar
          obtain ⟨h2, a2, kPS, kR2, he2, hPS, hR2, hkR1⟩ := cat_ok_inv hR1
          obtain ⟨h3, a3, kS1, kR3, he3, hS1, hR3, hkR2⟩ := cat_ok_inv hR2
          obtain ⟨h4, a4, kPT, kR4, he4, hPT, hR4, hkR3⟩ := cat_ok_inv hR3
          have hkAnil : capsForest "param_type" kA = [] :=
            caps_nil_of_run hA (by decide)
          have hkPSnil : capsForest "param_type" kPS = [] := by
            refine caps_nil_of_run hPS ?_
            intro hmem
            have hm2 : "param_type" ∈ rtags (param_string pay) := hmem
            simp [param_string, rtags, dquote, chr] at hm2
            exact hpay hm2
          have hkS1nil : capsForest "param_type" kS1 = [] :=
            caps_nil_of_run hS1 (by decide)
          have hkR4nil : capsForest "param_type" kR4 = [] :=
            caps_nil_of_run hR4 (by decide)
          obtain ⟨h4b, kPT1, hf4, hPTs, hkPT⟩ := node_ok_inv (by simpa [param_type] using hPT)
          obtain ⟨hb1, hsl, hkPT1⟩ := strR_ok _ _ _ _ _ _ hPTs
          subst hkPT1; subst hkPT
          refine ⟨a3, a3 + ts.length, kb, rfl, ?_, ?_⟩
          · rw [hkb, hkR1, hkR2, hkR3]
            simp [capsForest_cons, capsTree_mk, capsForest_nil,
              capsForest_append, hkAnil, hkPSnil, hkS1nil, hkR4nil, ← hb1]
          · rw [← hb1]; exact hsl
        rcases halt with hvar | ⟨hfail, hvar⟩
        · left
          have hvar1 : mrun g1 (stabs_directive_for lsym (strR "128".toList)
              DEFAULT_PARAM_OTHER_RULE DEFAULT_PARAM_DESC_RULE
              DEFAULT_PARAM_VALUE_RULE) s p = some (.ok q kb) := by
            simpa [stabs_directive_lsym] using hvar
          obtain ⟨u, v, kps, hkps, hcap, hslice⟩ := main lsym "128".toList hvar1 (by decide)
          constructor
          · subst hkps
            simp [capTexts, hcap, hslice]
          · simp only [stabs_directive_lsym, stabs_directive_for] at hvar
            obtain ⟨h1, a1, kA, kR1, he1, hA, hR1, hkb⟩ := cat_ok_inv hvar
            obtain ⟨h2, a2, kPS, kR2, he2, hPS, hR2, hkR1⟩ := cat_ok_inv hR1
            have hkAnil : capsForest "lsym" kA = [] :=
              caps_nil_of_run hA (by decide)
            have hkR2nil : capsForest "lsym" kR2 = [] :=
              caps_nil_of_run hR2 (by decide)
            obtain ⟨h2b, kPS1, hf2b, hPSin, hkPS⟩ :=
              node_ok_inv (by simpa [param_string] using hPS)
            obtain ⟨h5, b5, kQ1, kR5, he5, hQ1, hR5, hkPS1⟩ := cat_ok_inv hPSin
            obtain ⟨h6, b6, kL, kQ2, he6, hL, hQ2, hkR5⟩ := cat_ok_inv hR5
            have hkQ1 : kQ1 = [] :=
              tagFree_ok_kids _ _ s _ _ _ (by decide) hQ1
            have hkQ2 : kQ2 = [] :=
              tagFree_ok_kids _ _ s _ _ _ (by decide) hQ2
            obtain ⟨h6b, kL1, hf6b, hLin, hkL⟩ := node_ok_inv (by simpa [lsym] using hL)
            have hkL1nil : capsForest "lsym" kL1 = [] :=
              caps_nil_of_run hLin (by decide)
            subst hkb; subst hkR1; subst hkPS; subst hkPS1; subst hkR5
            subst hkQ1; subst hkQ2; subst hkL
            simp [capsForest_cons, capsTree_mk, capsForest_nil,
              capsForest_append, hkAnil, hkR2nil, hkL1nil]
        · right
          have hvar1 : mrun g1 (stabs_directive_for include_file (strR "132".toList)
              DEFAULT_PARAM_OTHER_RULE DEFAULT_PARAM_DESC_RULE
              DEFAULT_PARAM_VALUE_RULE) s p = some (.ok q kb) := by
            simpa [stabs_directive_include_file] using hvar
          obtain ⟨u, v, kps, hkps, hcap, hslice⟩ :=
            main include_file "132".toList hvar1 (by decide)
          constructor
          · subst hkps
            simp [capTexts, hcap, hslice]
          · simp only [stabs_directive_include_file, stabs_directive_for] at hvar
            obtain ⟨h1, a1, kA, kR1, he1, hA, hR1, hkb⟩ := cat_ok_inv hvar
            obtain ⟨h2, a2, kPS, kR2, he2, hPS, hR2, hkR1⟩ := cat_ok_inv hR1
            have hkAnil : capsForest "include_file" kA = [] :=
              caps_nil_of_run hA (by decide)
            have hkR2nil : capsForest "include_file" kR2 = [] :=
              caps_nil_of_run hR2 (by decide)
            obtain ⟨h2b, kPS1, hf2b, hPSin, hkPS⟩ :=
              node_ok_inv (by simpa [param_string] using hPS)
            obtain ⟨h5, b5, kQ1, kR5, he5, hQ1, hR5, hkPS1⟩ := cat_ok_inv hPSin
            obtain ⟨h6, b6, kL, kQ2, he6, hL, hQ2, hkR5⟩ := cat_ok_inv hR5
            have hkQ1 : kQ1 = [] :=
              tagFree_ok_kids _ _ s _ _ _ (by decide) hQ1
            have hkQ2 : kQ2 = [] :=
              tagFree_ok_kids _ _ s _ _ _ (by decide) hQ2
            obtain ⟨h6b, kL1, hf6b, hLin, hkL⟩ :=
              node_ok_inv (by simpa [include_file] using hL)
            have hkL1nil : kL1 = [] :=
              tagFree_ok_kids _ _ s _ _ _ (by decide) hLin
            subst hkb; subst hkR1; subst hkPS; subst hkPS1; subst hkR5
            subst hkQ1; subst hkQ2; subst hkL; subst hkL1nil
            simp [capsForest_cons, capsTree_mk, capsForest_nil,
              capsForest_append, hkAnil, hkR2nil]

/-- C9, witness: the theorem applied to the two test lines — the `.stabd`
line's record-type field is `68`, and the `.stabs` line matches one of the
two admissible record-type/payload pairings. -/
theorem c9_witness :
    capTexts "param_type" line2 (treeOf (mrun 500 stabd_directive line2 0)) =
      ["68".toList] ∧
    ((capTexts "param_type" line1 (treeOf (mrun 500 stabs_directive line1 0)) =
        ["128".toList] ∧
      (capsForest "lsym" (treeOf (mrun 500 stabs_directive line1 0))).length = 1) ∨
     (capTexts "param_type" line1 (treeOf (mrun 500 stabs_directive line1 0)) =
        ["132".toList] ∧
      (capsForest "include_file"
        (treeOf (mrun 500 stabs_directive line1 0))).length = 1)) :=
  ⟨(c9_record_types 500 line2 0).1 (by decide),
   (c9_record_types 500 line1 0).2 (by decide)⟩

/-- C10, witness: the four single-identifier name rules applied to the
struct payload, whose leading identifier is `Bar`. -/
theorem c10_witness :
    isIdentStr (slice payStruct 0 (endOf (mrun 20 variable_name payStruct 0))) = true ∧
    isIdentStr (slice payStruct 0 (endOf (mrun 20 array_name payStruct 0))) = true ∧
    isIdentStr (slice payStruct 0 (endOf (mrun 20 enum_name payStruct 0))) = true ∧
    isIdentStr (slice payStruct 0 (endOf (mrun 20 struct_name payStruct 0))) = true :=
  ⟨c10_names.2.1 20 payStruct 0 (by decide),
   c10_names.2.2.1 20 payStruct 0 (by decide),
   c10_names.2.2.2.1 20 payStruct 0 (by decide),
   c10_names.2.2.2.2 20 payStruct 0 (by decide)⟩

end Stabs
